import Mathlib

/-!
Shallow embedding of `emotiv/epoc.py` (python-emotiv): the session tables built
in `EPOC.__init__`, the key derivation of `EPOC.setupEncryption`, and the
acquisition pipeline `EPOC.acquireData` / `EPOC.getContactQuality`.

Modelling conventions:
* Python byte strings are `List Nat` (byte values); bitarrays are `List Bool`.
* Python string-keyed dicts are functions `String → Option _`; sequential
  insertion means a later assignment to the same key overwrites an earlier one.
* The device endpoint is a finite trace of read results; a `usb.USBError`
  raised by `endpoint.read(32)` is a `ReadResult.usbError` entry carrying its
  `errno`.  Exhausting the trace stands for the legacy behaviour of blocking
  forever on a silent device (`AcqError.stalled`).
* The decryptor worker is started from the `emotiv.decryptor` module, which is
  not part of this source tree; it is modelled from the spec (see
  `DecryptFun`).  The two queues are modelled synchronously: every raw frame
  forwarded to the input queue has been decrypted (or dropped) by the worker
  before `output_queue.qsize()` is polled again, and the `join()` barrier is
  therefore a no-op.
-/

namespace Epoc

/-- Python `slice(start, stop)` as stored in `self.slices`. -/
structure Sl where
  start : Nat
  stop : Nat
deriving DecidableEq, Repr

/-- `self.channels` (epoc.py lines 74-75): the 14 electrode names. -/
def channels : List String :=
  ["F3", "FC5", "AF3", "F7", "T7", "P7", "O1",
   "O2", "P8", "T8", "F8", "AF4", "FC6", "F4"]

/-- `self.quality` (epoc.py lines 78-83): the contact-quality dict, every
electrode initialised to `0`; any other key is absent (`None`). -/
def initQuality : String → Option Nat := fun e =>
  if e = "F3" then some 0 else if e = "FC5" then some 0
  else if e = "AF3" then some 0 else if e = "F7" then some 0
  else if e = "T7" then some 0 else if e = "P7" then some 0
  else if e = "O1" then some 0 else if e = "O2" then some 0
  else if e = "P8" then some 0 else if e = "T8" then some 0
  else if e = "F8" then some 0 else if e = "AF4" then some 0
  else if e = "FC6" then some 0 else if e = "F4" then some 0
  else none

/-- The 16 entries `self.cqOrder` starts from (epoc.py lines 89-91). -/
def cqHead : List (Option String) :=
  (["F3", "FC5", "AF3", "F7", "T7", "P7", "O1",
    "O2", "P8", "T8", "F8", "AF4", "FC6", "F4",
    "F8", "AF4"] : List String).map some

/-- `self.cqOrder` (epoc.py lines 89-101), built exactly as the source does:
start from the 16-entry head, extend with 48 `None`s, extend with the first 16
entries again, append `"FC6"`, then extend with the last four entries repeated
12 times. -/
def cqOrder : List (Option String) :=
  let l1 := cqHead ++ List.replicate 48 (none : Option String)
  let l2 := l1 ++ l1.take 16
  let l3 := l2 ++ (["FC6"] : List String).map some
  l3 ++ (List.replicate 12 (l3.drop (l3.length - 4))).flatten

/-- The 14 channel bit ranges zipped with `channels` (epoc.py lines 109-123). -/
def channelRanges : List Sl :=
  [⟨8, 22⟩, ⟨22, 36⟩, ⟨36, 50⟩, ⟨50, 64⟩, ⟨64, 78⟩, ⟨78, 92⟩, ⟨92, 106⟩,
   ⟨134, 148⟩, ⟨148, 162⟩, ⟨162, 176⟩, ⟨176, 190⟩, ⟨190, 204⟩, ⟨204, 218⟩,
   ⟨218, 232⟩]

/-- The sequence of dict assignments that populates `self.slices`
(epoc.py lines 109-128): the 14 channel entries from `dict(zip(...))`, then
`slices["GYROX"] = slice(233, 240)`, then `slices["GYROX"] = slice(240, 248)`
overwriting it, then `slices["SEQ#"] = slice(0, 8)`. -/
def slicesAssignments : List (String × Sl) :=
  channels.zip channelRanges ++
    [("GYROX", ⟨233, 240⟩), ("GYROX", ⟨240, 248⟩), ("SEQ#", ⟨0, 8⟩)]

/-- A single Python dict assignment `d[k] = v` on a string-keyed map. -/
def dictSet (d : String → Option Sl) (k : String) (v : Sl) : String → Option Sl :=
  fun q => if q = k then some v else d q

/-- `self.slices` as it stands after `__init__`: the assignments of
`slicesAssignments` applied in order to the empty dict. -/
def slices : String → Option Sl :=
  slicesAssignments.foldl (fun d kv => dictSet d kv.1 kv.2) (fun _ => none)

/-- A raw 32-byte block as returned by `endpoint.read(32)`. -/
abbrev Raw := List Nat

/-- A decrypted frame as popped from `output_queue`: a bit-addressable buffer
(the Python side wraps it in a `bitarray`). -/
abbrev Frame := List Bool

/-- The session state of an `EPOC` object: the counters and tables set up at
the end of `__init__` (epoc.py lines 78-83, 109-128, 135, 158-162).  The two
queues and the device handle are kept outside the state (they are the explicit
arguments and results of `acquireData`). -/
structure EPOCState where
  packetLoss : Nat
  counter : Nat
  battery : Nat
  gyroX : Nat
  gyroY : Nat
  quality : String → Option Nat
  slices : String → Option Sl
  sampling_rate : Nat

/-- The state of a freshly constructed `EPOC` object. -/
def initState : EPOCState :=
  ⟨0, 0, 0, 0, 0, initQuality, slices, 128⟩

/-- `self.decryption_key` for a research headset (epoc.py lines 237-244):
serial bytes at offsets 15, 14, 13, 12 interleaved with fixed bytes. -/
def researchKeyBytes (sn : List Nat) : List Nat :=
  [sn.getD 15 0, 0x00, sn.getD 14 0, 0x54, sn.getD 13 0, 0x10, sn.getD 12 0, 0x42,
   sn.getD 15 0, 0x00, sn.getD 14 0, 0x48, sn.getD 13 0, 0x00, sn.getD 12 0, 0x50]

/-- `self.decryption_key` for a consumer headset (epoc.py lines 246-253). -/
def consumerKeyBytes (sn : List Nat) : List Nat :=
  [sn.getD 15 0, 0x00, sn.getD 14 0, 0x48, sn.getD 13 0, 0x00, sn.getD 12 0, 0x54,
   sn.getD 15 0, 0x10, sn.getD 14 0, 0x42, sn.getD 13 0, 0x00, sn.getD 12 0, 0x50]

/-- `EPOC.setupEncryption` (epoc.py lines 231-253) restricted to its pure
content: the 16-byte key derived from the serial number and the
research/consumer flag. -/
def setupEncryption (research : Bool) (sn : List Nat) : List Nat :=
  if research then researchKeyBytes sn else consumerKeyBytes sn

/-- The eight fixed bytes of the research key, in order of their (odd)
positions 1, 3, ..., 15 in the key. -/
def researchFixed : List Nat := [0x00, 0x54, 0x10, 0x42, 0x00, 0x48, 0x00, 0x50]

/-- The eight fixed bytes of the consumer key, in order of their (odd)
positions 1, 3, ..., 15 in the key. -/
def consumerFixed : List Nat := [0x00, 0x48, 0x00, 0x54, 0x10, 0x42, 0x00, 0x50]

/-- `bitarray.uint` of a big-endian bit list: the first bit is the most
significant. -/
def uintOfBits (bs : List Bool) : Nat :=
  bs.foldl (fun a b => 2 * a + (if b then 1 else 0)) 0

/-- `bits[self.slices[...]].uint` (epoc.py lines 283, 286): slice the bit
buffer with Python slice semantics (clamping, as `drop`/`take` do) and read it
as an unsigned integer. -/
def extractBits (f : Frame) (s : Sl) : Nat :=
  uintOfBits ((f.drop s.start).take (s.stop - s.start))

/-- One result of `self.endpoint.read(32)` inside the acquisition loop: either
a raw frame, or a `usb.USBError` with the given `errno` raised by the read. -/
inductive ReadResult where
  | frame (raw : Raw)
  | usbError (errno : Nat)
deriving DecidableEq, Repr

/-- Modelled from the spec: the Decryption Worker started by
`setupEncryption` lives in the `emotiv.decryptor` module, which is not in the
source tree.  Per the spec it decrypts each raw frame pushed to the input
queue with the derived key and pushes the decoded frame to the output queue;
a frame that fails to decrypt (`DecryptionFault`) is logged and dropped, so
nothing reaches the output queue for it.  It is modelled as an arbitrary
function from a raw frame to an optional decoded frame, `none` meaning the
frame was dropped. -/
abbrev DecryptFun := Raw → Option Frame

/-- The ways `acquireData` can fail in this model: the two `usb.USBError`
translations of epoc.py lines 268-274, the Python `KeyError` a missing
channel key raises at line 286, and `stalled` for a device trace that ends
before enough frames arrived (the real loop would block forever). -/
inductive AcqError where
  | turnedOff
  | usb (errno : Nat)
  | keyError (ch : String)
  | stalled
deriving DecidableEq, Repr

/-- What the worker produces for one device read: frames are decrypted with
`decrypt`, a read that raised never reaches the queues. -/
def readDecode (decrypt : DecryptFun) : ReadResult → Option Frame
  | ReadResult.frame raw => decrypt raw
  | ReadResult.usbError _ => none

/-- The `while self.output_queue.qsize() != totalSamples` loop of
`EPOC.acquireData` (epoc.py lines 264-274): poll the output queue size; if it
differs from `total`, perform one device read and forward it to the worker.
A read that raises `usb.USBError` aborts with errno 110 mapped to
`EPOCTurnedOffError` and anything else to `EPOCUSBError`.  Returns the number
of device reads performed together with the decoded frames (the drained
output queue). -/
def acquireLoop (decrypt : DecryptFun) (total : Nat) (reads : List ReadResult)
    (outQ : List Frame) (rd : Nat) : Nat × Except AcqError (List Frame) :=
    if outQ.length = total then (rd, Except.ok outQ)
    else
      match reads with
      | [] => (rd, Except.error AcqError.stalled)
      | ReadResult.usbError e :: _ =>
          (rd + 1,
           Except.error (if e = 110 then AcqError.turnedOff else AcqError.usb e))
      | ReadResult.frame raw :: rest =>
          match decrypt raw with
          | some f => acquireLoop decrypt total rest (outQ ++ [f]) (rd + 1)
          | none => acquireLoop decrypt total rest outQ (rd + 1)

/-- Left-to-right effectful map over `Except`, stopping at the first error:
the evaluation order of the Python `for` loops in epoc.py lines 281-286. -/
def mapE {α β : Type} (f : α → Except AcqError β) : List α → Except AcqError (List β)
  | [] => Except.ok []
  | a :: l =>
    match f a with
    | Except.error e => Except.error e
    | Except.ok b =>
      match mapE f l with
      | Except.error e => Except.error e
      | Except.ok bs => Except.ok (b :: bs)

/-- `bits[self.slices[ch]].uint` with the dict lookup made explicit: a key
absent from `self.slices` raises a `KeyError` (epoc.py line 286). -/
def lookupChannel (sl : String → Option Sl) (f : Frame) (ch : String) :
    Except AcqError Nat :=
  match sl ch with
  | some s => Except.ok (extractBits f s)
  | none => Except.error (AcqError.keyError ch)

/-- The per-sample body of the fill loop (epoc.py lines 282-286): for one
decoded frame, the sequence-number field followed by the requested channels'
fields, in request order. -/
def parseColumn (sl : String → Option Sl) (mask : List String) (f : Frame) :
    Except AcqError (List Nat) :=
  match lookupChannel sl f ("SEQ#") with
  | Except.error e => Except.error e
  | Except.ok s0 =>
    match mapE (lookupChannel sl f) mask with
    | Except.error e => Except.error e
    | Except.ok vs => Except.ok (s0 :: vs)

/-- The row-major view of `eeg_data` (epoc.py line 280): row `r` of the
`nrows × cols.length` matrix collects entry `r` of every per-sample column
(missing entries read as the `np.zeros` fill `0`). -/
def buildRows (nrows : Nat) (cols : List (List Nat)) : List (List Nat) :=
  (List.range nrows).map (fun r => cols.map (fun c => c.getD r 0))

/-- The matrix-filling phase of `EPOC.acquireData` (epoc.py lines 280-286):
parse every decoded frame into a column and assemble the
`(len(channelMask) + 1) × totalSamples` matrix. -/
def acquirePhase2 (sl : String → Option Sl) (mask : List String)
    (frames : List Frame) : Except AcqError (List (List Nat)) :=
  match mapE (parseColumn sl mask) frames with
  | Except.error e => Except.error e
  | Except.ok cols => Except.ok (buildRows (mask.length + 1) cols)

/-- The tail of `EPOC.acquireData` (epoc.py lines 276-296): given the read
loop's outcome, fill and return the matrix (or propagate the error). -/
def acquireFinish (st : EPOCState) (mask : List String)
    (rdFrames : Nat × Except AcqError (List Frame)) :
    Nat × Except AcqError (EPOCState × List (List Nat)) :=
  match rdFrames with
  | (rd, Except.error e) => (rd, Except.error e)
  | (rd, Except.ok frames) =>
    match acquirePhase2 st.slices mask frames with
    | Except.error e => (rd, Except.error e)
    | Except.ok m => (rd, Except.ok (st, m))

/-- `EPOC.acquireData` (epoc.py lines 262-296) without the optional `savemat`
side effect: run the read loop until `duration * self.sampling_rate` decoded
frames are queued, then fill and return the matrix.  The first component is
the number of device reads performed; the session state is returned so that
its (non-)mutation is part of the function's meaning. -/
def acquireData (decrypt : DecryptFun) (st : EPOCState) (reads : List ReadResult)
    (duration : Nat) (channelMask : List String) :
    Nat × Except AcqError (EPOCState × List (List Nat)) :=
  acquireFinish st channelMask
    (acquireLoop decrypt (duration * st.sampling_rate) reads [] 0)

/-- `EPOC.getContactQuality` (epoc.py lines 298-300):
`self.quality.get(electrode, None)`. -/
def getContactQuality (st : EPOCState) (electrode : String) : Option Nat :=
  st.quality electrode

end Epoc

namespace Epoc

/-! ### Helper lemmas -/

theorem getq_of_lt {α : Type} (d : α) (l : List α) :
    ∀ (i : Nat), i < l.length → l[i]? = some (l.getD i d) := by
  induction l with
  | nil => intro i h; simp at h
  | cons a l ih =>
    intro i h
    cases i with
    | zero => simp
    | succ i =>
      have hi : i < l.length := by simpa using Nat.lt_of_succ_lt_succ h
      simpa using ih i hi

theorem getD_map_of_lt {α β : Type} (g : α → β) (d : β) (l : List α) :
    ∀ (i : Nat) (hi : i < l.length), (l.map g).getD i d = g l[i] := by
  induction l with
  | nil => intro i hi; simp at hi
  | cons a l ih =>
    intro i hi
    cases i with
    | zero => simp
    | succ i =>
      have hi2 : i < l.length := by simpa using Nat.lt_of_succ_lt_succ hi
      simpa using ih i hi2

theorem filterMap_length_all {α β : Type} (f : α → Option β) :
    ∀ l : List α, (∀ a ∈ l, (f a).isSome = true) →
      (l.filterMap f).length = l.length := by
  intro l
  induction l with
  | nil => intro _; rfl
  | cons a l ih =>
    intro h
    rcases hg : f a with _ | b
    · have ha := h a (by simp)
      simp [hg] at ha
    · simp only [List.filterMap_cons, hg, List.length_cons]
      rw [ih (fun x hx => h x (by simp [hx]))]

theorem countP_isNone_zero {α β : Type} (f : α → Option β) (l : List α)
    (h : ∀ a ∈ l, (f a).isSome = true) :
    l.countP (fun a => (f a).isNone) = 0 := by
  rw [List.countP_eq_zero]
  intro a ha
  rcases Option.isSome_iff_exists.mp (h a ha) with ⟨b, hb⟩
  simp [hb]

theorem mapE_ok {α β : Type} (f : α → Except AcqError β) (g : α → β) :
    ∀ l : List α, (∀ a ∈ l, f a = Except.ok (g a)) →
      mapE f l = Except.ok (l.map g) := by
  intro l
  induction l with
  | nil => intro _; rfl
  | cons a l ih =>
    intro h
    have ha := h a (by simp)
    have hl := ih (fun x hx => h x (by simp [hx]))
    simp [mapE, ha, hl]

theorem mapE_lookup_error (sl : String → Option Sl) (f : Frame) :
    ∀ (mask : List String), (∃ ch ∈ mask, sl ch = none) →
      ∃ ch2 ∈ mask, sl ch2 = none ∧
        mapE (lookupChannel sl f) mask = Except.error (AcqError.keyError ch2) := by
  intro mask
  induction mask with
  | nil => rintro ⟨ch, hch, _⟩; simp at hch
  | cons c l ih =>
    rintro ⟨ch, hch, hnone⟩
    rcases hc : sl c with _ | s
    · exact ⟨c, by simp, hc, by simp [mapE, lookupChannel, hc]⟩
    · have hch2 : ch ∈ l := by
        rcases List.mem_cons.mp hch with h | h
        · subst h; rw [hc] at hnone; cases hnone
        · exact h
      obtain ⟨ch2, hm, hn, he⟩ := ih ⟨ch, hch2, hnone⟩
      exact ⟨ch2, by simp [hm], hn, by simp [mapE, lookupChannel, hc, he]⟩

theorem acquireLoop_done (decrypt : DecryptFun) (total : Nat)
    (reads : List ReadResult) (outQ : List Frame) (rd : Nat)
    (h : outQ.length = total) :
    acquireLoop decrypt total reads outQ rd = (rd, Except.ok outQ) := by
  cases reads <;> (conv_lhs => rw [acquireLoop.eq_def]) <;> simp [h]

theorem acquireLoop_nil (decrypt : DecryptFun) (total : Nat)
    (outQ : List Frame) (rd : Nat) (h : ¬ outQ.length = total) :
    acquireLoop decrypt total [] outQ rd = (rd, Except.error AcqError.stalled) := by
  conv_lhs => rw [acquireLoop.eq_def]
  simp [h]

theorem acquireLoop_usb (decrypt : DecryptFun) (total : Nat) (e : Nat)
    (tl : List ReadResult) (outQ : List Frame) (rd : Nat)
    (h : ¬ outQ.length = total) :
    acquireLoop decrypt total (ReadResult.usbError e :: tl) outQ rd =
      (rd + 1,
       Except.error (if e = 110 then AcqError.turnedOff else AcqError.usb e)) := by
  conv_lhs => rw [acquireLoop.eq_def]
  simp [h]

theorem acquireLoop_frame_some (decrypt : DecryptFun) (total : Nat) (raw : Raw)
    (rest : List ReadResult) (outQ : List Frame) (rd : Nat) (f : Frame)
    (h : ¬ outQ.length = total) (hg : decrypt raw = some f) :
    acquireLoop decrypt total (ReadResult.frame raw :: rest) outQ rd =
      acquireLoop decrypt total rest (outQ ++ [f]) (rd + 1) := by
  conv_lhs => rw [acquireLoop.eq_def]
  simp [h, hg]

theorem acquireLoop_frame_none (decrypt : DecryptFun) (total : Nat) (raw : Raw)
    (rest : List ReadResult) (outQ : List Frame) (rd : Nat)
    (h : ¬ outQ.length = total) (hg : decrypt raw = none) :
    acquireLoop decrypt total (ReadResult.frame raw :: rest) outQ rd =
      acquireLoop decrypt total rest outQ (rd + 1) := by
  conv_lhs => rw [acquireLoop.eq_def]
  simp [h, hg]

end Epoc

namespace Epoc

theorem acquireLoop_frames (decrypt : DecryptFun) (total : Nat) :
    ∀ (raws : List Raw) (outQ : List Frame) (rd : Nat),
      outQ.length ≤ total →
      total - outQ.length ≤ (raws.filterMap decrypt).length →
      ∃ k,
        acquireLoop decrypt total (raws.map ReadResult.frame) outQ rd =
          (rd + k, Except.ok (outQ ++ (raws.take k).filterMap decrypt)) ∧
        ((raws.take k).filterMap decrypt).length = total - outQ.length ∧
        k = (total - outQ.length) +
              (raws.take k).countP (fun r => (decrypt r).isNone) := by
  intro raws
  induction raws with
  | nil =>
    intro outQ rd h1 h2
    have hq : outQ.length = total := by
      simp only [List.filterMap_nil, List.length_nil] at h2
      omega
    refine ⟨0, ?_, ?_, ?_⟩
    · rw [List.map_nil, acquireLoop_done decrypt total _ outQ rd hq]
      simp
    · simp [hq]
    · simp [hq]
  | cons raw rest ih =>
    intro outQ rd h1 h2
    by_cases hq : outQ.length = total
    · refine ⟨0, ?_, ?_, ?_⟩
      · rw [acquireLoop_done decrypt total _ outQ rd hq]
        simp
      · simp [hq]
      · simp [hq]
    · have hlt : outQ.length < total := Nat.lt_of_le_of_ne h1 hq
      rcases hg : decrypt raw with _ | f
      · have h2r : total - outQ.length ≤ (rest.filterMap decrypt).length := by
          simpa [List.filterMap_cons, hg] using h2
        obtain ⟨k, he, hlen, hk⟩ := ih outQ (rd + 1) h1 h2r
        refine ⟨k + 1, ?_, ?_, ?_⟩
        · rw [List.map_cons,
            acquireLoop_frame_none decrypt total raw _ outQ rd hq hg, he]
          simp only [List.take_succ_cons, List.filterMap_cons, hg,
            Prod.mk.injEq]
          exact ⟨by omega, trivial⟩
        · simpa [List.take_succ_cons, List.filterMap_cons, hg] using hlen
        · simp [List.take_succ_cons, List.countP_cons, hg]
          omega
      · have h2c : total - outQ.length ≤ (rest.filterMap decrypt).length + 1 := by
          simpa [List.filterMap_cons, hg] using h2
        have h1b : (outQ ++ [f]).length ≤ total := by
          simp only [List.length_append, List.length_cons, List.length_nil]
          omega
        have h2b : total - (outQ ++ [f]).length ≤ (rest.filterMap decrypt).length := by
          simp only [List.length_append, List.length_cons, List.length_nil]
          omega
        obtain ⟨k, he, hlen, hk⟩ := ih (outQ ++ [f]) (rd + 1) h1b h2b
        have hlen2 : ((rest.take k).filterMap decrypt).length =
            total - (outQ.length + 1) := by
          simpa [List.length_append] using hlen
        have hk2 : k = (total - (outQ.length + 1)) +
            (rest.take k).countP (fun r => (decrypt r).isNone) := by
          simpa [List.length_append] using hk
        refine ⟨k + 1, ?_, ?_, ?_⟩
        · rw [List.map_cons,
            acquireLoop_frame_some decrypt total raw _ outQ rd f hq hg, he]
          simp only [List.take_succ_cons, List.filterMap_cons, hg,
            Prod.mk.injEq, List.append_assoc, List.cons_append,
            List.nil_append]
          exact ⟨by omega, trivial⟩
        · simp only [List.take_succ_cons, List.filterMap_cons, hg,
            List.length_cons]
          omega
        · simp [List.take_succ_cons, List.countP_cons, hg]
          omega

theorem acquireLoop_usbError_reach (decrypt : DecryptFun) (total : Nat) :
    ∀ (raws : List Raw) (e : Nat) (tl : List ReadResult) (outQ : List Frame)
      (rd : Nat),
      outQ.length + (raws.filterMap decrypt).length < total →
      acquireLoop decrypt total
          (raws.map ReadResult.frame ++ ReadResult.usbError e :: tl) outQ rd =
        (rd + raws.length + 1,
         Except.error (if e = 110 then AcqError.turnedOff else AcqError.usb e)) := by
  intro raws
  induction raws with
  | nil =>
    intro e tl outQ rd h
    simp only [List.filterMap_nil, List.length_nil, Nat.add_zero] at h
    have hq : ¬ outQ.length = total := by omega
    simpa using acquireLoop_usb decrypt total e tl outQ rd hq
  | cons raw rest ih =>
    intro e tl outQ rd h
    have hq : ¬ outQ.length = total := by
      have hx : outQ.length < total := by omega
      omega
    rcases hg : decrypt raw with _ | f
    · have h2 : outQ.length + (rest.filterMap decrypt).length < total := by
        simpa [List.filterMap_cons, hg] using h
      rw [List.map_cons, List.cons_append,
        acquireLoop_frame_none decrypt total raw _ outQ rd hq hg,
        ih e tl outQ (rd + 1) h2]
      simp only [List.length_cons, Prod.mk.injEq]
      exact ⟨by omega, trivial⟩
    · have hc : outQ.length + ((rest.filterMap decrypt).length + 1) < total := by
        simpa [List.filterMap_cons, hg] using h
      have h2 : (outQ ++ [f]).length + (rest.filterMap decrypt).length < total := by
        simp only [List.length_append, List.length_cons, List.length_nil]
        omega
      rw [List.map_cons, List.cons_append,
        acquireLoop_frame_some decrypt total raw _ outQ rd f hq hg,
        ih e tl (outQ ++ [f]) (rd + 1) h2]
      simp only [List.length_cons, Prod.mk.injEq]
      exact ⟨by omega, trivial⟩

theorem parseColumn_ok (sl : String → Option Sl) (mask : List String) (f : Frame)
    (s0 : Sl) (hseq : sl ("SEQ#") = some s0)
    (hmask : ∀ ch ∈ mask, (sl ch).isSome = true) :
    parseColumn sl mask f =
      Except.ok (extractBits f s0 ::
        mask.map (fun ch => extractBits f ((sl ch).getD ⟨0, 0⟩))) := by
  have hm : mapE (lookupChannel sl f) mask =
      Except.ok (mask.map (fun ch => extractBits f ((sl ch).getD ⟨0, 0⟩))) := by
    apply mapE_ok
    intro ch hch
    rcases Option.isSome_iff_exists.mp (hmask ch hch) with ⟨s, hs⟩
    simp [lookupChannel, hs]
  simp [parseColumn, lookupChannel, hseq, hm]

theorem acquirePhase2_ok (sl : String → Option Sl) (mask : List String)
    (frames : List Frame) (s0 : Sl) (hseq : sl ("SEQ#") = some s0)
    (hmask : ∀ ch ∈ mask, (sl ch).isSome = true) :
    acquirePhase2 sl mask frames =
      Except.ok (buildRows (mask.length + 1)
        (frames.map (fun f => extractBits f s0 ::
          mask.map (fun ch => extractBits f ((sl ch).getD ⟨0, 0⟩))))) := by
  have hc := mapE_ok (parseColumn sl mask)
    (fun f => extractBits f s0 ::
      mask.map (fun ch => extractBits f ((sl ch).getD ⟨0, 0⟩)))
    frames (fun f _ => parseColumn_ok sl mask f s0 hseq hmask)
  simp [acquirePhase2, hc]

theorem buildRows_length (n : Nat) (cols : List (List Nat)) :
    (buildRows n cols).length = n := by
  simp [buildRows]

theorem buildRows_mem_length (n : Nat) (cols : List (List Nat)) :
    ∀ row ∈ buildRows n cols, row.length = cols.length := by
  intro row hrow
  simp only [buildRows, List.mem_map] at hrow
  obtain ⟨r, _, hrw⟩ := hrow
  rw [← hrw]
  simp

theorem buildRows_get (n : Nat) (cols : List (List Nat)) (r : Nat) (h : r < n) :
    (buildRows n cols)[r]? = some (cols.map (fun c => c.getD r 0)) := by
  simp [buildRows, List.getElem?_map, List.getElem?_range h]

theorem acquireFinish_error (st : EPOCState) (mask : List String) (rd : Nat)
    (e : AcqError) :
    acquireFinish st mask (rd, Except.error e) = (rd, Except.error e) := rfl

theorem acquireFinish_ok (st : EPOCState) (mask : List String) (rd : Nat)
    (frames : List Frame) :
    acquireFinish st mask (rd, Except.ok frames) =
      match acquirePhase2 st.slices mask frames with
      | Except.error e => (rd, Except.error e)
      | Except.ok m => (rd, Except.ok (st, m)) := rfl

theorem acquireData_ok_state (decrypt : DecryptFun) (st : EPOCState)
    (reads : List ReadResult) (d : Nat) (mask : List String) (rd : Nat)
    (st2 : EPOCState) (m : List (List Nat))
    (h : acquireData decrypt st reads d mask = (rd, Except.ok (st2, m))) :
    st2 = st := by
  unfold acquireData at h
  rcases hl : acquireLoop decrypt (d * st.sampling_rate) reads [] 0 with ⟨n, res⟩
  rw [hl] at h
  rcases res with e | frames
  · rw [acquireFinish_error] at h
    simp at h
  · rw [acquireFinish_ok] at h
    rcases hp : acquirePhase2 st.slices mask frames with e | mm <;> rw [hp] at h
    · simp at h
    · simp only [Prod.mk.injEq, Except.ok.injEq] at h
      exact h.2.1.symm

end Epoc

namespace Epoc

/-! ### Claim theorems -/

set_option maxRecDepth 100000 in
/-- C1: the Contact-Quality Cycle as constructed at startup.  The sub-rules of
the claim hold — indices 16-63 are all unknown (`none`), the 16-entry head is
repeated at indices 64-79, `"FC6"` is appended once (index 80), and from index
80 on the 4-entry block repeats with period 4 — but the table has 129 entries,
not the claimed 128: the 12-fold extension of the last four entries starts
after the appended `"FC6"` and runs through index 128, one entry past the
`seq mod 128` index range and past the code's own comment
`pattern 77-80 repeats until 127`. -/
theorem cqOrder_has_129_entries :
    cqOrder.length = 129 ∧
    (cqOrder.drop 16).take 48 = List.replicate 48 none ∧
    cqOrder.take 16 = (cqOrder.drop 64).take 16 ∧
    (cqOrder.drop 80).take 48 =
      (List.replicate 12 ((cqOrder.drop 80).take 4)).flatten ∧
    cqOrder.getD 128 none = some ("FC6") := by
  refine ⟨by decide, by decide, by decide, by decide, by decide⟩

/-- C8: in the Channel Table every one of the 14 channel names is mapped to a
bit range spanning exactly 14 bits, and the sequence-number field is exactly
bits [0, 8).  `slices` is a constant of the model, built once from
`slicesAssignments`; that `acquireData` never changes it is the frame-effect
theorem for the session state. -/
theorem slices_channel_spans :
    (∀ ch ∈ channels, (slices ch).map (fun s => s.stop - s.start) = some 14) ∧
    slices ("SEQ#") = some ⟨0, 8⟩ := by
  refine ⟨by decide, by decide⟩

/-- Witness for the channel-span theorem at the concrete channel "F3". -/
theorem slices_channel_spans_witness :
    ("F3" ∈ channels) ∧
    (slices ("F3")).map (fun s => s.stop - s.start) = some 14 :=
  ⟨by decide, slices_channel_spans.1 ("F3") (by decide)⟩

/-- C9: the legacy gyroscope assignment writes the key "GYROX" twice — first
bits [233, 240), then bits [240, 248), the second overwriting the first — and
no "GYROY" key is ever assigned, so the two gyroscope axes do not get
independent, non-overlapping bit ranges in the finished table. -/
theorem gyro_slice_overwritten :
    (slicesAssignments.filter (fun kv => kv.1 == "GYROX")).map (fun kv => kv.2) =
      [⟨233, 240⟩, ⟨240, 248⟩] ∧
    slices ("GYROX") = some ⟨240, 248⟩ ∧
    slices ("GYROY") = none := by
  refine ⟨by decide, by decide, by decide⟩

/-- C2: key derivation is a pure, deterministic function of the 16-character
serial number and the variant flag; the key always has 16 bytes, its even
positions 0, 2, ..., 14 hold the serial characters at offsets 15, 14, 13, 12
(slot `2 * j` holds offset `15 - j % 4`, so each offset is used twice), its
odd positions hold the eight fixed bytes of the chosen variant, and the two
variants agree on every even position — they differ only in the fixed
bytes. -/
theorem setupEncryption_spec (research : Bool) (sn : List Nat)
    (h : sn.length = 16) :
    (setupEncryption research sn).length = 16 ∧
    (∀ j, j < 8 → (setupEncryption research sn)[2 * j]? = sn[15 - j % 4]?) ∧
    (∀ j, j < 8 → (setupEncryption research sn)[2 * j + 1]? =
      (if research then researchFixed else consumerFixed)[j]?) ∧
    (∀ i, i < 16 → i % 2 = 0 →
      (setupEncryption true sn)[i]? = (setupEncryption false sn)[i]?) := by
  have h15 : sn[15]? = some (sn.getD 15 0) := getq_of_lt 0 sn 15 (by omega)
  have h14 : sn[14]? = some (sn.getD 14 0) := getq_of_lt 0 sn 14 (by omega)
  have h13 : sn[13]? = some (sn.getD 13 0) := getq_of_lt 0 sn 13 (by omega)
  have h12 : sn[12]? = some (sn.getD 12 0) := getq_of_lt 0 sn 12 (by omega)
  refine ⟨?_, ?_, ?_, ?_⟩
  · cases research <;> rfl
  · intro j hj
    interval_cases j <;> cases research <;>
      (norm_num; simp only [h15, h14, h13, h12]; rfl)
  · intro j hj
    interval_cases j <;> cases research <;> (norm_num; rfl)
  · intro i hi hpar
    interval_cases i <;> first | rfl | omega

/-- Witness for the key-derivation theorem at the concrete serial
`List.range 16` (bytes 0, 1, ..., 15) and the research variant. -/
theorem setupEncryption_spec_witness :
    (List.range 16).length = 16 ∧
    ((setupEncryption true (List.range 16)).length = 16 ∧
     (∀ j, j < 8 → (setupEncryption true (List.range 16))[2 * j]? =
        (List.range 16)[15 - j % 4]?) ∧
     (∀ j, j < 8 → (setupEncryption true (List.range 16))[2 * j + 1]? =
        (if true then researchFixed else consumerFixed)[j]?) ∧
     (∀ i, i < 16 → i % 2 = 0 →
        (setupEncryption true (List.range 16))[i]? =
          (setupEncryption false (List.range 16))[i]?)) :=
  ⟨by decide, setupEncryption_spec true (List.range 16) (by decide)⟩

/-- C7: during the acquisition loop a device read that raises `usb.USBError`
with errno 110 (device unpowered) makes the call fail as
`EPOCTurnedOffError`, and a read error with any other errno makes it fail as
`EPOCUSBError` carrying that errno; no other mapping occurs.  The hypothesis
states that the decryptable frames read before the failing read are not yet
enough to finish the loop, so the failing read really happens. -/
theorem acquireData_usb_mapping (decrypt : DecryptFun) (raws : List Raw)
    (e : Nat) (tl : List ReadResult) (d : Nat) (mask : List String)
    (hins : (raws.filterMap decrypt).length < d * 128) :
    acquireData decrypt initState
        (raws.map ReadResult.frame ++ ReadResult.usbError e :: tl) d mask =
      (raws.length + 1,
       Except.error (if e = 110 then AcqError.turnedOff else AcqError.usb e)) := by
  unfold acquireData
  rw [show d * initState.sampling_rate = d * 128 from rfl,
    acquireLoop_usbError_reach decrypt (d * 128) raws e tl [] 0
      (by simpa using hins),
    acquireFinish_error]
  simp

/-- Witness for the errno-mapping theorem: a first read failing with errno
110 on a fresh trace. -/
theorem acquireData_usb_mapping_witness :
    ((([] : List Raw).filterMap (fun _ => (none : Option Frame))).length <
       1 * 128) ∧
    acquireData (fun _ => (none : Option Frame)) initState
        (([] : List Raw).map ReadResult.frame ++
          ReadResult.usbError 110 :: ([] : List ReadResult)) 1 [] =
      (([] : List Raw).length + 1,
       Except.error (if 110 = 110 then AcqError.turnedOff else AcqError.usb 110)) :=
  ⟨by decide,
   acquireData_usb_mapping (fun _ => (none : Option Frame)) [] 110 [] 1 []
     (by decide)⟩

/-- C10: `acquireData` is effect-free on the session state: whenever it
returns a matrix, the stored counters (`packetLoss`, `counter`, `battery`,
`gyroX`, `gyroY`), the Quality Map, the Channel Table and the sampling rate
are exactly what they were before the call, for every duration, mask, device
trace and decryptor behaviour. -/
theorem acquireData_preserves_state (decrypt : DecryptFun) (st : EPOCState)
    (reads : List ReadResult) (d : Nat) (mask : List String) (rd : Nat)
    (st2 : EPOCState) (m : List (List Nat))
    (h : acquireData decrypt st reads d mask = (rd, Except.ok (st2, m))) :
    st2.packetLoss = st.packetLoss ∧ st2.counter = st.counter ∧
    st2.battery = st.battery ∧ st2.gyroX = st.gyroX ∧ st2.gyroY = st.gyroY ∧
    st2.quality = st.quality ∧ st2.slices = st.slices ∧
    st2.sampling_rate = st.sampling_rate := by
  have hst := acquireData_ok_state decrypt st reads d mask rd st2 m h
  subst hst
  exact ⟨rfl, rfl, rfl, rfl, rfl, rfl, rfl, rfl⟩

/-- Witness for the frame-effect theorem on the empty zero-duration run. -/
theorem acquireData_preserves_state_witness :
    initState.packetLoss = initState.packetLoss ∧
    initState.counter = initState.counter ∧
    initState.battery = initState.battery ∧
    initState.gyroX = initState.gyroX ∧
    initState.gyroY = initState.gyroY ∧
    initState.quality = initState.quality ∧
    initState.slices = initState.slices ∧
    initState.sampling_rate = initState.sampling_rate :=
  acquireData_preserves_state (fun _ => (none : Option Frame)) initState [] 0 []
    0 initState [[]] rfl

end Epoc

namespace Epoc

/-- C6 counterexample: in a fresh session no frame has been observed at all,
so in particular no observed sequence number has mapped "F3" through the
cycle; the claim then requires `getContactQuality` to return no value for
"F3", but the code returns the pre-populated initial quality `0` — the
Quality Map is initialised for all 14 electrodes and never written again. -/
theorem getContactQuality_initial_cex :
    getContactQuality initState ("F3") = some 0 ∧
    ¬ getContactQuality initState ("F3") = none := by
  refine ⟨by decide, by decide⟩

/-- C6 (amended): the acquisition code never reads the Contact-Quality Cycle
and never updates the Quality Map — no quality bit field is extracted from
any frame.  `getContactQuality` therefore returns the initial `0` for each of
the 14 electrode names regardless of the frames observed, and returns no
value exactly for names absent from the Quality Map. -/
theorem quality_never_updated :
    (∀ (decrypt : DecryptFun) (st : EPOCState) (reads : List ReadResult)
       (d : Nat) (mask : List String) (rd : Nat) (st2 : EPOCState)
       (m : List (List Nat)),
       acquireData decrypt st reads d mask = (rd, Except.ok (st2, m)) →
       ∀ e, getContactQuality st2 e = getContactQuality st e) ∧
    (∀ e, e ∈ channels → getContactQuality initState e = some 0) ∧
    (∀ e, getContactQuality initState e = none ↔ e ∉ channels) := by
  refine ⟨?_, by decide, ?_⟩
  · intro decrypt st reads d mask rd st2 m h e
    rw [acquireData_ok_state decrypt st reads d mask rd st2 m h]
  · intro e
    constructor
    · intro h hmem
      simp only [channels, List.mem_cons, List.not_mem_nil, or_false] at hmem
      rcases hmem with rfl|rfl|rfl|rfl|rfl|rfl|rfl|rfl|rfl|rfl|rfl|rfl|rfl|rfl <;>
        exact absurd h (by decide)
    · intro hmem
      have h1 : ¬ e = "F3" := fun hx => hmem (by rw [hx]; decide)
      have h2 : ¬ e = "FC5" := fun hx => hmem (by rw [hx]; decide)
      have h3 : ¬ e = "AF3" := fun hx => hmem (by rw [hx]; decide)
      have h4 : ¬ e = "F7" := fun hx => hmem (by rw [hx]; decide)
      have h5 : ¬ e = "T7" := fun hx => hmem (by rw [hx]; decide)
      have h6 : ¬ e = "P7" := fun hx => hmem (by rw [hx]; decide)
      have h7 : ¬ e = "O1" := fun hx => hmem (by rw [hx]; decide)
      have h8 : ¬ e = "O2" := fun hx => hmem (by rw [hx]; decide)
      have h9 : ¬ e = "P8" := fun hx => hmem (by rw [hx]; decide)
      have h10 : ¬ e = "T8" := fun hx => hmem (by rw [hx]; decide)
      have h11 : ¬ e = "F8" := fun hx => hmem (by rw [hx]; decide)
      have h12 : ¬ e = "AF4" := fun hx => hmem (by rw [hx]; decide)
      have h13 : ¬ e = "FC6" := fun hx => hmem (by rw [hx]; decide)
      have h14 : ¬ e = "F4" := fun hx => hmem (by rw [hx]; decide)
      show initQuality e = none
      simp only [initQuality, if_neg h1, if_neg h2, if_neg h3, if_neg h4, if_neg h5, if_neg h6, if_neg h7, if_neg h8, if_neg h9, if_neg h10, if_neg h11, if_neg h12, if_neg h13, if_neg h14]

/-- Witness for the quality theorem at concrete electrodes and the empty
zero-duration run. -/
theorem quality_never_updated_witness :
    ("F3" ∈ channels) ∧ getContactQuality initState ("F3") = some 0 ∧
    ¬ ("QQ" ∈ channels) ∧ getContactQuality initState ("QQ") = none ∧
    getContactQuality initState ("F3") = getContactQuality initState ("F3") :=
  ⟨by decide, quality_never_updated.2.1 ("F3") (by decide), by decide,
   (quality_never_updated.2.2 ("QQ")).mpr (by decide),
   quality_never_updated.1 (fun _ => (none : Option Frame)) initState [] 0 []
     0 initState [[]] rfl ("F3")⟩

/-- C3: for a valid channel mask and positive duration, with the device trace
supplying enough decryptable frames, `acquireData` returns a matrix with
`len(mask) + 1` rows and exactly `duration * 128` columns
(`totalSamples = duration * sampling_rate`, the rate fixed at 128).  Row 0
holds the sequence-number field (bits [0, 8)) of each decoded frame and row
`i + 1` holds the bit field of channel `mask[i]`, in request order. -/
theorem acquireData_shape (decrypt : DecryptFun) (raws : List Raw) (d : Nat)
    (mask : List String) (hd : 0 < d)
    (hmask : ∀ ch ∈ mask, (initState.slices ch).isSome = true)
    (hgood : ∀ r ∈ raws, (decrypt r).isSome = true)
    (hlen : d * 128 ≤ raws.length) :
    ∃ m,
      acquireData decrypt initState (raws.map ReadResult.frame) d mask =
        (d * 128, Except.ok (initState, m)) ∧
      m.length = mask.length + 1 ∧
      (∀ row ∈ m, row.length = d * 128) ∧
      m[0]? = some (((raws.take (d * 128)).filterMap decrypt).map
        (fun f => extractBits f ⟨0, 8⟩)) ∧
      (∀ i (hi : i < mask.length), ∃ s, initState.slices mask[i] = some s ∧
        m[i + 1]? = some (((raws.take (d * 128)).filterMap decrypt).map
          (fun f => extractBits f s))) := by
  have hseq : initState.slices ("SEQ#") = some ⟨0, 8⟩ := by decide
  have hflen : (raws.filterMap decrypt).length = raws.length :=
    filterMap_length_all decrypt raws hgood
  obtain ⟨k, he, hklen, hk⟩ := acquireLoop_frames decrypt (d * 128) raws [] 0
    (by simp) (by simp only [List.length_nil, Nat.sub_zero, hflen]; exact hlen)
  simp only [List.length_nil, Nat.sub_zero, Nat.zero_add, List.nil_append]
    at he hklen hk
  have hknil : (raws.take k).countP (fun r => (decrypt r).isNone) = 0 :=
    countP_isNone_zero decrypt (raws.take k)
      (fun a ha => hgood a (List.take_subset k raws ha))
  have hkval : k = d * 128 := by omega
  subst hkval
  have hp2 := acquirePhase2_ok initState.slices mask
    ((raws.take (d * 128)).filterMap decrypt) ⟨0, 8⟩ hseq hmask
  refine ⟨buildRows (mask.length + 1)
    (((raws.take (d * 128)).filterMap decrypt).map
      (fun f => extractBits f ⟨0, 8⟩ ::
        mask.map (fun ch => extractBits f ((initState.slices ch).getD ⟨0, 0⟩)))),
    ?_, ?_, ?_, ?_, ?_⟩
  · unfold acquireData
    rw [show d * initState.sampling_rate = d * 128 from rfl, he,
      acquireFinish_ok, hp2]
  · exact buildRows_length _ _
  · intro row hrow
    rw [buildRows_mem_length _ _ row hrow]
    simp [hklen]
  · rw [buildRows_get _ _ 0 (by omega), List.map_map]
    rfl
  · intro i hi
    rcases Option.isSome_iff_exists.mp (hmask mask[i] (List.getElem_mem hi))
      with ⟨s, hs⟩
    refine ⟨s, hs, ?_⟩
    rw [buildRows_get _ _ (i + 1) (by omega), List.map_map]
    congr 1
    apply List.map_congr_left
    intro f _
    show (mask.map (fun ch =>
        extractBits f ((initState.slices ch).getD ⟨0, 0⟩))).getD i 0 =
      extractBits f s
    rw [getD_map_of_lt _ _ mask i hi, hs]
    rfl

/-- C4: a raw frame the worker fails to decrypt is dropped and does not change
the number of samples returned: the loop keeps the expected total
`duration * 128` (the matrix still has that many columns) and instead performs
exactly one extra device read for each dropped frame — the reads performed
equal `duration * 128` plus the number of dropped frames among them. -/
theorem acquireData_dropped_frames (decrypt : DecryptFun) (raws : List Raw)
    (d : Nat) (mask : List String)
    (hmask : ∀ ch ∈ mask, (initState.slices ch).isSome = true)
    (hgood : d * 128 ≤ (raws.filterMap decrypt).length) :
    ∃ k m,
      acquireData decrypt initState (raws.map ReadResult.frame) d mask =
        (k, Except.ok (initState, m)) ∧
      m.length = mask.length + 1 ∧
      (∀ row ∈ m, row.length = d * 128) ∧
      k = d * 128 + (raws.take k).countP (fun r => (decrypt r).isNone) := by
  have hseq : initState.slices ("SEQ#") = some ⟨0, 8⟩ := by decide
  obtain ⟨k, he, hklen, hk⟩ := acquireLoop_frames decrypt (d * 128) raws [] 0
    (by simp) (by simpa using hgood)
  simp only [List.length_nil, Nat.sub_zero, Nat.zero_add, List.nil_append]
    at he hklen hk
  have hp2 := acquirePhase2_ok initState.slices mask
    ((raws.take k).filterMap decrypt) ⟨0, 8⟩ hseq hmask
  refine ⟨k, buildRows (mask.length + 1)
    (((raws.take k).filterMap decrypt).map
      (fun f => extractBits f ⟨0, 8⟩ ::
        mask.map (fun ch => extractBits f ((initState.slices ch).getD ⟨0, 0⟩)))),
    ?_, ?_, ?_, ?_⟩
  · unfold acquireData
    rw [show d * initState.sampling_rate = d * 128 from rfl, he,
      acquireFinish_ok, hp2]
  · exact buildRows_length _ _
  · intro row hrow
    rw [buildRows_mem_length _ _ row hrow]
    simp [hklen]
  · exact hk

/-- C5 (amended): a mask containing a channel name absent from the Channel
Table does NOT fail fast: no validation happens before the device is read.
The loop first performs all `duration * 128` device reads, and only the
matrix-filling phase then fails, with the Python `KeyError` (modelled
`AcqError.keyError`) of an invalid channel of the mask. -/
theorem acquireData_invalid_channel (decrypt : DecryptFun) (raws : List Raw)
    (d : Nat) (mask : List String) (ch : String) (hd : 0 < d)
    (hgood : ∀ r ∈ raws, (decrypt r).isSome = true)
    (hlen : d * 128 ≤ raws.length)
    (hch : ch ∈ mask) (hbad : initState.slices ch = none) :
    ∃ ch2 ∈ mask, initState.slices ch2 = none ∧
      acquireData decrypt initState (raws.map ReadResult.frame) d mask =
        (d * 128, Except.error (AcqError.keyError ch2)) := by
  have hseq : initState.slices ("SEQ#") = some ⟨0, 8⟩ := by decide
  have hflen : (raws.filterMap decrypt).length = raws.length :=
    filterMap_length_all decrypt raws hgood
  obtain ⟨k, he, hklen, hk⟩ := acquireLoop_frames decrypt (d * 128) raws [] 0
    (by simp) (by simp only [List.length_nil, Nat.sub_zero, hflen]; exact hlen)
  simp only [List.length_nil, Nat.sub_zero, Nat.zero_add, List.nil_append]
    at he hklen hk
  have hknil : (raws.take k).countP (fun r => (decrypt r).isNone) = 0 :=
    countP_isNone_zero decrypt (raws.take k)
      (fun a ha => hgood a (List.take_subset k raws ha))
  have hkval : k = d * 128 := by omega
  subst hkval
  rcases hF : (raws.take (d * 128)).filterMap decrypt with _ | ⟨f0, rest⟩
  · rw [hF] at hklen
    simp at hklen
    omega
  · obtain ⟨ch2, hm, hn, herr⟩ :=
      mapE_lookup_error initState.slices f0 mask ⟨ch, hch, hbad⟩
    have hpc : parseColumn initState.slices mask f0 =
        Except.error (AcqError.keyError ch2) := by
      simp [parseColumn, lookupChannel, hseq, herr]
    have hp2 : acquirePhase2 initState.slices mask (f0 :: rest) =
        Except.error (AcqError.keyError ch2) := by
      simp [acquirePhase2, mapE, hpc]
    refine ⟨ch2, hm, hn, ?_⟩
    unfold acquireData
    rw [show d * initState.sampling_rate = d * 128 from rfl, he, hF,
      acquireFinish_ok, hp2]

end Epoc

namespace Epoc

/-- C5 counterexample: with the unknown channel name "XX" in the mask and a
trace of 128 decryptable frames, the call performs all 128 device reads (first
component) — the device is touched, frames are consumed — and only then fails
with the key-lookup error; it does not fail before the first read as the
claim demands, and no dedicated invalid-channel check exists. -/
theorem acquireData_invalid_channel_cex :
    acquireData (fun _ => some ([] : List Bool)) initState
        (List.replicate 128 (ReadResult.frame ([] : List Nat))) 1 ["XX"] =
      (128, Except.error (AcqError.keyError ("XX"))) := by
  rfl

set_option maxRecDepth 100000 in
/-- Witness for the amended invalid-channel theorem at the concrete mask
["XX"] and a 128-frame trace. -/
theorem acquireData_invalid_channel_witness :
    (0 < 1) ∧
    (∀ r ∈ List.replicate 128 ([] : List Nat),
      ((fun _ => some ([] : List Bool)) r).isSome = true) ∧
    (1 * 128 ≤ (List.replicate 128 ([] : List Nat)).length) ∧
    ("XX" ∈ (["XX"] : List String)) ∧
    (initState.slices ("XX") = none) ∧
    (∃ ch2 ∈ (["XX"] : List String), initState.slices ch2 = none ∧
      acquireData (fun _ => some ([] : List Bool)) initState
          ((List.replicate 128 ([] : List Nat)).map ReadResult.frame) 1 ["XX"] =
        (1 * 128, Except.error (AcqError.keyError ch2))) :=
  ⟨by decide, fun r _ => rfl, by decide, by decide, by decide,
   acquireData_invalid_channel (fun _ => some ([] : List Bool))
     (List.replicate 128 ([] : List Nat)) 1 ["XX"] ("XX") (by decide)
     (fun r _ => rfl) (by decide) (by decide) (by decide)⟩

set_option maxRecDepth 100000 in
/-- Witness for the shape theorem: one second of data for mask ["O1"] from a
trace of 128 decryptable frames. -/
theorem acquireData_shape_witness :
    (0 < 1) ∧
    (∀ ch ∈ (["O1"] : List String), (initState.slices ch).isSome = true) ∧
    (∀ r ∈ List.replicate 128 ([] : List Nat),
      ((fun _ => some ([] : List Bool)) r).isSome = true) ∧
    (1 * 128 ≤ (List.replicate 128 ([] : List Nat)).length) ∧
    (∃ m,
      acquireData (fun _ => some ([] : List Bool)) initState
          ((List.replicate 128 ([] : List Nat)).map ReadResult.frame) 1 ["O1"] =
        (1 * 128, Except.ok (initState, m)) ∧
      m.length = (["O1"] : List String).length + 1 ∧
      (∀ row ∈ m, row.length = 1 * 128) ∧
      m[0]? = some ((((List.replicate 128 ([] : List Nat)).take (1 * 128)).filterMap
          (fun _ => some ([] : List Bool))).map
        (fun f => extractBits f ⟨0, 8⟩)) ∧
      (∀ i (hi : i < (["O1"] : List String).length), ∃ s,
        initState.slices (["O1"] : List String)[i] = some s ∧
        m[i + 1]? = some ((((List.replicate 128 ([] : List Nat)).take
            (1 * 128)).filterMap (fun _ => some ([] : List Bool))).map
          (fun f => extractBits f s)))) :=
  ⟨by decide, by decide, fun r _ => rfl, by decide,
   acquireData_shape (fun _ => some ([] : List Bool))
     (List.replicate 128 ([] : List Nat)) 1 ["O1"] (by decide) (by decide)
     (fun r _ => rfl) (by decide)⟩

set_option maxRecDepth 100000 in
/-- Witness for the dropped-frame theorem: a trace whose first raw frame
fails to decrypt followed by 128 decryptable ones. -/
theorem acquireData_dropped_frames_witness :
    (∀ ch ∈ ([] : List String), (initState.slices ch).isSome = true) ∧
    (1 * 128 ≤ ((([1] : List Nat) :: List.replicate 128 ([] : List Nat)).filterMap
      (fun r => if r.length = 0 then some ([] : List Bool) else none)).length) ∧
    (∃ k m,
      acquireData (fun r => if r.length = 0 then some ([] : List Bool) else none)
          initState
          ((([1] : List Nat) :: List.replicate 128 ([] : List Nat)).map
            ReadResult.frame) 1 [] =
        (k, Except.ok (initState, m)) ∧
      m.length = ([] : List String).length + 1 ∧
      (∀ row ∈ m, row.length = 1 * 128) ∧
      k = 1 * 128 + ((([1] : List Nat) :: List.replicate 128 ([] : List Nat)).take
          k).countP
        (fun r => ((fun r => if r.length = 0 then some ([] : List Bool) else none)
          r).isNone)) :=
  ⟨by decide, by decide,
   acquireData_dropped_frames
     (fun r => if r.length = 0 then some ([] : List Bool) else none)
     (([1] : List Nat) :: List.replicate 128 ([] : List Nat)) 1 [] (by decide)
     (by decide)⟩

end Epoc
